import Mathlib

/-!
Verification of the go-mssqldb typed value codec layer against its
natural-language specification.

The Go source is shallowly embedded: machine integers become `Nat`/`Int`
with explicit modular reductions, byte slices become `List Nat` (each
entry a byte value), `float32` values are carried as their 32-bit IEEE-754
bit patterns, and fallible functions return `Except String`.
All definitions are translated from the repository source
(`vector.go`, `mssql_go19.go`, `money_test.go`); the two places whose
implementation is not part of the source snapshot (`encodeDateTime` in
`types.go` and `tlsHandshakeConn` in `net.go`) are modelled from the
specification, as marked in their doc comments.
-/

namespace GoMssql

/-! ## Little-endian byte encoding helpers (encoding/binary)

`binary.LittleEndian.PutUint16/PutUint32` store `byte(v >> (8*i))` at
index `i`; `binary.LittleEndian.Uint16/Uint32` assemble
`uint(b[0]) | uint(b[1])<<8 | ...`.  Go's `byte(x)` conversion is
truncation modulo 256. -/

def putUint16LE (n : Nat) : List Nat :=
  [n % 256, (n >>> 8) % 256]

def putUint32LE (n : Nat) : List Nat :=
  [n % 256, (n >>> 8) % 256, (n >>> 16) % 256, (n >>> 24) % 256]

def readUint16LE (l : List Nat) : Nat :=
  l.getD 0 0 ||| ((l.getD 1 0) <<< 8)

def readUint32LE (l : List Nat) : Nat :=
  l.getD 0 0 ||| ((l.getD 1 0) <<< 8) ||| ((l.getD 2 0) <<< 16) ||| ((l.getD 3 0) <<< 24)

/-! ## The Vector model (vector.go)

`Vector.Data` is a Go `[]float32`; we model it as `Option (List Nat)`
(`none` is the nil slice, elements are float32 bit patterns, each below
`2^32`).  `VectorElementType` is a Go `byte`. -/

abbrev VectorElementType := Nat

def VectorElementFloat32 : VectorElementType := 0x00
def VectorElementFloat16 : VectorElementType := 0x01

def vectorMagic : Nat := 0xA9
def vectorVersion : Nat := 0x01
def vectorHeaderSize : Nat := 8
def vectorMaxDimensionsFloat32 : Nat := 1998
def vectorMaxDimensionsFloat16 : Nat := 3996

/-- `VectorElementType.BytesPerElement` (switch with a float32 default). -/
def BytesPerElement (t : VectorElementType) : Nat :=
  if t = VectorElementFloat32 then 4
  else if t = VectorElementFloat16 then 2
  else 4

/-- `VectorElementType.MaxDimensions` (switch with a float32 default). -/
def MaxDimensions (t : VectorElementType) : Nat :=
  if t = VectorElementFloat32 then vectorMaxDimensionsFloat32
  else if t = VectorElementFloat16 then vectorMaxDimensionsFloat16
  else vectorMaxDimensionsFloat32

structure Vector where
  ElementType : VectorElementType
  Data : Option (List Nat)
  deriving DecidableEq, Repr

/-! ### float32 <-> float16 conversion (bit-level, as in vector.go)

The Go code works on `math.Float32bits`; we keep the same bit-level
algorithm on `Nat`.  `halfExponent` is a Go `int`, hence `Int` here. -/

/-- `float32ToFloat16` translated from vector.go. -/
def float32ToFloat16 (bits : Nat) : Nat :=
  let sign := (bits >>> 31) &&& 0x1
  let exponent : Int := ((bits >>> 23) &&& 0xFF : Nat)
  let mantissa := bits &&& 0x7FFFFF
  if exponent = 0xFF then
    if mantissa ≠ 0 then (sign <<< 15) ||| 0x7E00
    else (sign <<< 15) ||| 0x7C00
  else if bits &&& 0x7FFFFFFF = 0 then sign <<< 15
  else
    let halfExponent : Int := exponent - 127 + 15
    if halfExponent ≥ 31 then (sign <<< 15) ||| 0x7C00
    else if halfExponent ≤ 0 then
      if halfExponent < -10 then sign <<< 15
      else
        let mantissa := mantissa ||| 0x800000
        let shift : Nat := (1 - halfExponent).toNat
        let mant := mantissa >>> (shift + 13)
        let roundBit := (mantissa >>> (shift + 12)) &&& 1
        let lostBits := mantissa &&& ((1 <<< (shift + 12)) - 1)
        if roundBit = 1 ∧ (lostBits ≠ 0 ∨ mant &&& 1 = 1) then
          (sign <<< 15) ||| (mant + 1)
        else
          (sign <<< 15) ||| mant
    else
      let mant := mantissa >>> 13
      let roundBit := (mantissa >>> 12) &&& 1
      let lostBits := mantissa &&& 0xFFF
      if roundBit = 1 ∧ (lostBits ≠ 0 ∨ mant &&& 1 = 1) then
        if mant + 1 = 0x400 then
          if halfExponent + 1 ≥ 31 then (sign <<< 15) ||| 0x7C00
          else (sign <<< 15) ||| ((halfExponent + 1).toNat <<< 10) ||| 0
        else (sign <<< 15) ||| (halfExponent.toNat <<< 10) ||| (mant + 1)
      else (sign <<< 15) ||| (halfExponent.toNat <<< 10) ||| mant

/-- Bit pattern of `float32(math.NaN())`: the quiet NaN `0x7FC00000`. -/
def float32NaNBits : Nat := 0x7FC00000

/-- Bit pattern of `float32(math.Inf(1))`. -/
def float32PosInfBits : Nat := 0x7F800000

/-- Bit pattern of `float32(math.Inf(-1))`. -/
def float32NegInfBits : Nat := 0xFF800000

/-- The subnormal-normalisation loop of `float16ToFloat32`
(`for mantissa&0x400 == 0 { mantissa <<= 1; exponent-- }`).  At its only
call site `mantissa ≤ 0x3FF`, so the loop doubles a non-zero mantissa
until bit 10 is set; the two extra guards (`mantissa = 0`, where the Go
loop would not terminate, and `mantissa < 1024`, implied by bit 10 being
clear on every reachable input) totalise the unreachable cases. -/
def normalizeSubnormal (mantissa : Nat) (exponent : Int) : Nat × Int :=
  if mantissa = 0 then (mantissa, exponent)
  else if mantissa &&& 0x400 = 0 ∧ mantissa < 1024 then
    normalizeSubnormal (mantissa <<< 1) (exponent - 1)
  else (mantissa, exponent)
termination_by 1024 - mantissa
decreasing_by
  simp only [Nat.shiftLeft_eq]
  omega

/-- `float16ToFloat32` translated from vector.go, with the result as a
float32 bit pattern.  `float32(math.NaN())` is the positive quiet NaN. -/
def float16ToFloat32 (value : Nat) : Nat :=
  let sign := (value >>> 15) &&& 0x1
  let exponent : Int := ((value >>> 10) &&& 0x1F : Nat)
  let mantissa := value &&& 0x3FF
  if exponent = 31 then
    if mantissa ≠ 0 then float32NaNBits
    else if sign = 1 then float32NegInfBits
    else float32PosInfBits
  else if exponent = 0 ∧ mantissa = 0 then
    if sign = 1 then 0x80000000 else 0
  else
    let (mantissa, exponent) :=
      if exponent = 0 then
        let (m, e) := normalizeSubnormal mantissa exponent
        (m &&& 0x3FF, e + 1)
      else (mantissa, exponent)
    let exponent := exponent + (127 - 15)
    (sign <<< 31) ||| (exponent.toNat <<< 23) ||| (mantissa <<< 13)

/-! ### Vector wire encoding (vector.go `encodeToBytes` / `decodeFromBytes`) -/

/-- The float32 element payload: `PutUint32(..., math.Float32bits(val))`
for each element in order. -/
def encodeF32Elems : List Nat → List Nat
  | [] => []
  | x :: rest => putUint32LE x ++ encodeF32Elems rest

/-- The float16 element payload: `PutUint16(..., float32ToFloat16(val))`. -/
def encodeF16Elems : List Nat → List Nat
  | [] => []
  | x :: rest => putUint16LE (float32ToFloat16 x) ++ encodeF16Elems rest

/-- `Vector.encodeToBytes`.  A nil `Data` returns `(nil, nil)`; the
header is `{magic, version, dims uint16 LE, element type, 3 reserved}`. -/
def encodeToBytes (v : Vector) : Except String (Option (List Nat)) :=
  match v.Data with
  | none => Except.ok none
  | some d =>
    let dimensions := d.length
    if dimensions > MaxDimensions v.ElementType then
      Except.error ("mssql: vector dimensions exceeds maximum")
    else
      let header := [vectorMagic, vectorVersion, dimensions % 256,
        (dimensions >>> 8) % 256, v.ElementType, 0x00, 0x00, 0x00]
      if v.ElementType = VectorElementFloat32 then
        Except.ok (some (header ++ encodeF32Elems d))
      else if v.ElementType = VectorElementFloat16 then
        Except.ok (some (header ++ encodeF16Elems d))
      else
        Except.error ("mssql: unsupported vector element type")

/-- Reading `dims` float32 elements little-endian from the payload. -/
def readF32Elems : Nat → List Nat → List Nat
  | 0, _ => []
  | n + 1, l => readUint32LE l :: readF32Elems n (l.drop 4)

/-- Reading `dims` float16 elements and widening each to float32. -/
def readF16Elems : Nat → List Nat → List Nat
  | 0, _ => []
  | n + 1, l => float16ToFloat32 (readUint16LE l) :: readF16Elems n (l.drop 2)

/-- `Vector.decodeFromBytes`.  Note the Go code tests `len(buf) == 0`,
which cannot distinguish a nil slice from a non-nil empty one. -/
def decodeFromBytes (buf : List Nat) : Except String Vector :=
  if buf.length = 0 then
    Except.ok { ElementType := VectorElementFloat32, Data := none }
  else if buf.length < vectorHeaderSize then
    Except.error ("mssql: vector data too short for header")
  else if buf.getD 0 0 ≠ vectorMagic then
    Except.error ("mssql: invalid vector magic byte")
  else if buf.getD 1 0 ≠ vectorVersion then
    Except.error ("mssql: unsupported vector version")
  else
    let dimensions := readUint16LE (buf.drop 2)
    let elementType := buf.getD 4 0
    if elementType ≠ VectorElementFloat32 ∧ elementType ≠ VectorElementFloat16 then
      Except.error ("mssql: unsupported vector element type")
    else
      let expectedDataSize := vectorHeaderSize + dimensions * BytesPerElement elementType
      if buf.length < expectedDataSize then
        Except.error ("mssql: vector data size mismatch")
      else if elementType = VectorElementFloat32 then
        Except.ok { ElementType := elementType,
                    Data := some (readF32Elems dimensions (buf.drop vectorHeaderSize)) }
      else
        Except.ok { ElementType := elementType,
                    Data := some (readF16Elems dimensions (buf.drop vectorHeaderSize)) }

/-! ## Money codec (mssql_go19.go `makeMoneyParam`, money_test.go `readMoney`)

`coeff` is the Go `int64` produced by `val.Mul(decimal.New(1, 4)).IntPart()`,
the base-10^4-scaled integer coefficient of the decimal.  Go's
`uint32(coeff >> 32)` (arithmetic shift, then truncation) and
`uint32(coeff)` are exactly the high and low 32-bit halves of the
two's-complement representation of the int64, which we model through
`int64ToUint64`. -/

def int64ToUint64 (c : Int) : Nat := (c % (2 ^ 64 : Int)).toNat

def uint64ToInt64 (u : Nat) : Int :=
  if u < 2 ^ 63 then (u : Int) else (u : Int) - 2 ^ 64

/-- The 8-byte buffer written by `makeMoneyParam`: the high 32-bit word
little-endian in bytes 0-3, then the low word little-endian in bytes 4-7. -/
def makeMoneyParamBuffer (coeff : Int) : List Nat :=
  putUint32LE (int64ToUint64 coeff >>> 32) ++ putUint32LE (int64ToUint64 coeff % 2 ^ 32)

/-- `readMoney` from money_test.go:
`int64(uint64(Uint32(buf))<<32 | uint64(Uint32(buf[4:])))`. -/
def readMoney (buf : List Nat) : Int :=
  uint64ToInt64 ((readUint32LE buf <<< 32) ||| readUint32LE (buf.drop 4))

/-! ## DateTime encoding (spec-modelled)

The implementation of `encodeDateTime` lives in types.go, which is not
part of the source snapshot (only its tests are), so it is modelled
from the specification: the wire format is {days since 1900-01-01 as
int32, time-of-day in 1/300-second ticks as uint32}; the tick count
rounds to the nearest 1/300 second, and when rounding reaches exactly
one day's worth of ticks (300×86400) the overflow carries into the day
count.  A time value is modelled as the pair (day number, nanoseconds
since midnight). -/

def ticksPerDay : Nat := 300 * 86400

def nanosPerDay : Nat := 86400 * 1000000000

/-- Modelled from the spec: `encodeDateTime` (types.go, missing from
the snapshot) rounds the time of day to the nearest 1/300-second tick
and carries a full day's worth of ticks into the day count instead of
emitting an out-of-range tick value. -/
def encodeDateTime (days : Int) (nanos : Nat) : Int × Nat :=
  let ticks := (nanos * 300 + 500000000) / 1000000000
  if ticks ≥ ticksPerDay then (days + 1, 0) else (days, ticks)

/-! ## TLS handshake adapter (spec-modelled)

`tlsHandshakeConn` lives in net.go, which is not part of the source
snapshot (only its tests are), so its `FinishPacket` is modelled from
the specification and the behaviour asserted by
`TestTlsHandshakeConn_FinishPacket`: it reports whether a packet was
actually pending, flushes the pending packet (an empty PRELOGIN packet
being exactly its 8-byte header), and wraps a transport write failure
with context while leaving the pending flag set. -/

structure TlsHandshakeConn where
  packetPending : Bool
  deriving DecidableEq, Repr

def packPrelogin : Nat := 18

/-- Modelled from the spec: the 8-byte TDS header of an empty final
PRELOGIN packet {type, status=EOM, length:2 BE, SPID:2 BE, packet-id,
window}, the exact bytes checked by the test. -/
def emptyPreloginPacket : List Nat := [packPrelogin, 1, 0, 8, 0, 0, 1, 0]

/-- Modelled from the spec: `tlsHandshakeConn.FinishPacket` (net.go,
missing from the snapshot).  `transportErr` is the failure, if any, the
underlying transport write would report.  The result is (new state,
finished?, error, bytes written to the transport). -/
def FinishPacket (transportErr : Option String) (c : TlsHandshakeConn) :
    TlsHandshakeConn × Bool × Option String × List Nat :=
  if c.packetPending then
    match transportErr with
    | none => ({ packetPending := false }, true, none, emptyPreloginPacket)
    | some e => (c, false, some ("cannot send handshake packet: " ++ e), [])
  else (c, false, none, [])

/-! ## JSON parameter encoding (mssql_go19.go `makeParamExtra`)

Only the `JSON`/`NullJSON` cases of `makeParamExtra` are modelled; the
wire type id and the declared type id are separate fields of the type
info, with `DeclTypeId = none` standing for the Go zero value (unset). -/

inductive TdsTypeId where
  | typeNVarChar
  | typeJson
  deriving DecidableEq, Repr

structure TypeInfo where
  TypeId : TdsTypeId
  DeclTypeId : Option TdsTypeId
  Size : Nat
  deriving DecidableEq, Repr

structure Param where
  ti : TypeInfo
  buffer : Option (List Nat)
  deriving DecidableEq, Repr

structure TdsSession where
  jsonSupported : Bool
  deriving DecidableEq, Repr

structure Conn where
  sess : Option TdsSession
  deriving DecidableEq, Repr

structure Stmt where
  c : Option Conn
  deriving DecidableEq, Repr

/-- The condition `s.c != nil && s.c.sess != nil && s.c.sess.jsonSupported`
computed inside both JSON cases of `makeParamExtra`. -/
def jsonSupportedOf (s : Stmt) : Bool :=
  match s.c with
  | none => false
  | some c =>
    match c.sess with
    | none => false
    | some sess => sess.jsonSupported

/-- UTF-16 code units of one code point (surrogate pair above 0xFFFF). -/
def utf16Units (c : Nat) : List Nat :=
  if c < 0x10000 then [c]
  else [0xD800 + ((c - 0x10000) >>> 10), 0xDC00 + ((c - 0x10000) &&& 0x3FF)]

/-- `str2ucs2`: `utf16.Encode([]rune(s))` serialised little-endian. -/
def str2ucs2 (s : String) : List Nat :=
  s.data.foldr
    (fun ch acc => (utf16Units ch.toNat).foldr (fun u acc2 => putUint16LE u ++ acc2) acc) []

/-- The `JSON` and `NullJSON` driver values fed to `makeParamExtra`. -/
inductive JSONParamValue where
  | json (content : String)
  | nullJson (valid : Bool) (content : String)
  deriving DecidableEq, Repr

/-- The `JSON`/`NullJSON` cases of `Stmt.makeParamExtra`: nvarchar wire
type with Size 0 (PLP max format), `DeclTypeId` set to the native json
type exactly when the session negotiated JSON support, and a nil buffer
for an invalid `NullJSON`. -/
def makeParamExtraJSON (s : Stmt) : JSONParamValue → Param
  | .json content =>
    { ti := { TypeId := .typeNVarChar,
              DeclTypeId := if jsonSupportedOf s then some .typeJson else none,
              Size := 0 },
      buffer := some (str2ucs2 content) }
  | .nullJson valid content =>
    { ti := { TypeId := .typeNVarChar,
              DeclTypeId := if jsonSupportedOf s then some .typeJson else none,
              Size := 0 },
      buffer := if valid then some (str2ucs2 content) else none }

/-! ## Vector JSON representation (vector.go `ToJSON` / `Value`) -/

/-- Strip trailing zero digits of a fractional part. -/
def trimTrailingZeros (s : String) : String :=
  String.mk ((s.data.reverse.dropWhile (fun c => c = '0')).reverse)

/-- `strconv.FormatFloat(float64(val), 'f', -1, 32)` on a float32 bit
pattern.  The special values are exact ("NaN", "+Inf", "-Inf"); finite
values are rendered as their exact decimal expansion, whereas Go prints
the shortest round-tripping decimal - a purely textual difference for
finite values that no theorem in this file relies on. -/
def formatFloat32 (bits : Nat) : String :=
  let sign := (bits >>> 31) &&& 0x1
  let e := (bits >>> 23) &&& 0xFF
  let m := bits &&& 0x7FFFFF
  if e = 255 then
    if m ≠ 0 then "NaN" else if sign = 1 then "-Inf" else "+Inf"
  else
    let signStr := if sign = 1 then "-" else ""
    let mFull := if e = 0 then m else m + 2 ^ 23
    let e2 : Int := (max e 1 : Nat) - 150
    if 0 ≤ e2 then signStr ++ toString (mFull * 2 ^ e2.toNat)
    else
      let k := (-e2).toNat
      let intPart := mFull / 2 ^ k
      let frac := mFull % 2 ^ k
      if frac = 0 then signStr ++ toString intPart
      else
        let digits := toString (frac * 5 ^ k)
        let padded := String.mk (List.replicate (k - digits.length) '0') ++ digits
        signStr ++ toString intPart ++ "." ++ trimTrailingZeros padded

/-- `Vector.ToJSON`: a JSON array where every element is rendered with
`strconv.FormatFloat` - with no special handling of NaN or infinities. -/
def Vector.ToJSON (v : Vector) : String :=
  match v.Data with
  | none => "[]"
  | some d => "[" ++ String.intercalate ", " (d.map formatFloat32) ++ "]"

/-- `Vector.Value`: nil data gives a SQL NULL, otherwise the JSON string
from `ToJSON`; the error result is always nil. -/
def Vector.Value (v : Vector) : Except String (Option String) :=
  match v.Data with
  | none => Except.ok none
  | some _ => Except.ok (some v.ToJSON)

/-! ## Slice aliasing model (vector.go constructors and `Values`)

Go slices are mutable references into backing arrays.  To state the
copying behaviour of `NewVector`, `NewVectorWithType`,
`NewVectorFromFloat64` (`data := make(...); copy(data, values)`) and
`Vector.Values`, slices are modelled as indices into a store of cells;
`make`+`copy` is an allocation of a fresh cell holding the same
contents, and mutating a slice element is a store update. -/

structure Store where
  cells : List (List Nat)
  deriving DecidableEq, Repr

/-- `make` + `copy`: a fresh cell with the given contents. -/
def Store.alloc (st : Store) (contents : List Nat) : Store × Nat :=
  ({ cells := st.cells ++ [contents] }, st.cells.length)

/-- Dereference a slice. -/
def Store.read (st : Store) (r : Nat) : List Nat :=
  st.cells.getD r []

/-- `slice[i] = x`: mutate one element of the cell behind a slice. -/
def Store.writeElem (st : Store) (r i x : Nat) : Store :=
  { cells := st.cells.set r ((st.cells.getD r []).set i x) }

/-- A `Vector` whose `Data` field is a live slice reference. -/
structure VectorH where
  ElementType : VectorElementType
  dataRef : Nat
  deriving DecidableEq, Repr

/-- `NewVector` over the store model. -/
def NewVector (st : Store) (values : Nat) : Except String (Store × VectorH) :=
  if (st.read values).length > vectorMaxDimensionsFloat32 then
    Except.error ("mssql: vector dimensions exceeds maximum for float32")
  else
    let a := st.alloc (st.read values)
    Except.ok (a.1, { ElementType := VectorElementFloat32, dataRef := a.2 })

/-- `NewVectorWithType` over the store model. -/
def NewVectorWithType (st : Store) (elementType : VectorElementType) (values : Nat) :
    Except String (Store × VectorH) :=
  if (st.read values).length > MaxDimensions elementType then
    Except.error ("mssql: vector dimensions exceeds maximum for element type")
  else
    let a := st.alloc (st.read values)
    Except.ok (a.1, { ElementType := elementType, dataRef := a.2 })

/-- Round `m` to the nearest multiple of `2^k` (ties to even), returned
as the quotient. -/
def rneQuot (m k : Nat) : Nat :=
  let q := m / 2 ^ k
  let r := m % 2 ^ k
  if 2 * r > 2 ^ k ∨ (2 * r = 2 ^ k ∧ q % 2 = 1) then q + 1 else q

/-- The IEEE-754 round-to-nearest-even narrowing performed by Go's
`float32(f)` conversion of a float64, on bit patterns. -/
def float64BitsToFloat32Bits (bits : Nat) : Nat :=
  let sign := (bits >>> 63) &&& 0x1
  let e : Int := ((bits >>> 52) &&& 0x7FF : Nat)
  let m := bits &&& 0xFFFFFFFFFFFFF
  if e = 0x7FF then
    if m ≠ 0 then (sign <<< 31) ||| 0x7FC00000
    else (sign <<< 31) ||| 0x7F800000
  else if e = 0 then
    sign <<< 31
  else
    let e32 : Int := e - 1023 + 127
    if e32 ≥ 255 then (sign <<< 31) ||| 0x7F800000
    else if e32 ≤ 0 then
      if e32 < -24 then sign <<< 31
      else (sign <<< 31) ||| rneQuot (m + 2 ^ 52) ((1 - e32).toNat + 29)
    else
      let mant := rneQuot m 29
      if mant = 2 ^ 23 then
        if e32 + 1 ≥ 255 then (sign <<< 31) ||| 0x7F800000
        else (sign <<< 31) ||| ((e32 + 1).toNat <<< 23)
      else (sign <<< 31) ||| (e32.toNat <<< 23) ||| mant

/-- `NewVectorFromFloat64` over the store model: the input cell holds
float64 bit patterns, each narrowed to float32. -/
def NewVectorFromFloat64 (st : Store) (values : Nat) : Except String (Store × VectorH) :=
  if (st.read values).length > vectorMaxDimensionsFloat32 then
    Except.error ("mssql: vector dimensions exceeds maximum for float32")
  else
    let a := st.alloc ((st.read values).map float64BitsToFloat32Bits)
    Except.ok (a.1, { ElementType := VectorElementFloat32, dataRef := a.2 })

/-- `Vector.Values` over the store model: a fresh copy of the data. -/
def VectorH.Values (st : Store) (v : VectorH) : Store × Nat :=
  st.alloc (st.read v.dataRef)

/-! ## Rational valuation of float bit patterns (for the float16 claims) -/

/-- The exact rational value of a float32 bit pattern, `none` for NaN
and the infinities (biased exponent 255).  A normal value is
`±(2^23 + m) * 2^(e-150)` and a subnormal one `±m * 2^(-149)`. -/
def float32Val (b : Nat) : Option ℚ :=
  let s : Nat := b / 2 ^ 31 % 2
  let e : Nat := b / 2 ^ 23 % 256
  let m : Nat := b % 2 ^ 23
  if e = 255 then none
  else
    let mag : ℚ := if e = 0 then (m : ℚ) / 2 ^ 149
      else ((2 ^ 23 + m : Nat) : ℚ) * 2 ^ e / 2 ^ 150
    some (if s = 1 then -mag else mag)

/-- The exact rational value of a float16 bit pattern, `none` for NaN
and the infinities (biased exponent 31).  A normal value is
`±(2^10 + m) * 2^(e-25)` and a subnormal one `±m * 2^(-24)`. -/
def float16Val (b : Nat) : Option ℚ :=
  let s : Nat := b / 2 ^ 15 % 2
  let e : Nat := b / 2 ^ 10 % 32
  let m : Nat := b % 2 ^ 10
  if e = 31 then none
  else
    let mag : ℚ := if e = 0 then (m : ℚ) / 2 ^ 24
      else ((2 ^ 10 + m : Nat) : ℚ) * 2 ^ e / 2 ^ 25
    some (if s = 1 then -mag else mag)

/-- One ULP at float16 precision for a float32 input: `2^-24`
throughout the float16 subnormal range (input biased exponent at most
112, i.e. |x| < 2^-14) and `2^(e-127) * 2^-10 = 2^e / 2^137` for an
input in the normal float16 binade of biased exponent `e`. -/
def ulp16 (b : Nat) : ℚ :=
  let e := b / 2 ^ 23 % 256
  if e ≤ 112 then 1 / 2 ^ 24
  else (2 : ℚ) ^ e / 2 ^ 137

/-- Arithmetic reformulation of `float32ToFloat16` on the sign /
exponent / mantissa fields, proven equal to the bit-level translation
in `float32ToFloat16_eq_arith`; used only inside proofs. -/
def float32ToFloat16Arith (s e m : Nat) : Nat :=
  if e = 255 then
    if m ≠ 0 then s * 2 ^ 15 + 0x7E00 else s * 2 ^ 15 + 0x7C00
  else if e = 0 ∧ m = 0 then s * 2 ^ 15
  else if 143 ≤ e then s * 2 ^ 15 + 0x7C00
  else if e ≤ 112 then
    if e ≤ 101 then s * 2 ^ 15
    else
      let M := 2 ^ 23 + m
      let R := if M / 2 ^ (125 - e) % 2 = 1 ∧
          (M % 2 ^ (125 - e) ≠ 0 ∨ M / 2 ^ (126 - e) % 2 = 1)
        then M / 2 ^ (126 - e) + 1 else M / 2 ^ (126 - e)
      s * 2 ^ 15 + R
  else
    let R := if m / 2 ^ 12 % 2 = 1 ∧ (m % 2 ^ 12 ≠ 0 ∨ m / 2 ^ 13 % 2 = 1)
      then m / 2 ^ 13 + 1 else m / 2 ^ 13
    if R = 2 ^ 10 then
      if 142 ≤ e then s * 2 ^ 15 + 0x7C00
      else s * 2 ^ 15 + (e - 111) * 2 ^ 10
    else s * 2 ^ 15 + (e - 112) * 2 ^ 10 + R

/-! ## Theorems -/

/-! ### Bridge lemmas between bit operations and arithmetic -/

theorem shiftLeft_or_eq_add (a b k : Nat) (h : b < 2 ^ k) :
    (a <<< k) ||| b = a * 2 ^ k + b := by
  rw [Nat.shiftLeft_eq, Nat.mul_comm a (2 ^ k), ← Nat.mul_add_lt_is_or h a]

theorem or_shiftLeft_eq_add (b a k : Nat) (h : b < 2 ^ k) :
    b ||| (a <<< k) = a * 2 ^ k + b := by
  rw [Nat.lor_comm]
  exact shiftLeft_or_eq_add a b k h

theorem readUint16LE_eq (b0 b1 : Nat) (h0 : b0 < 256) (rest : List Nat) :
    readUint16LE (b0 :: b1 :: rest) = b1 * 256 + b0 := by
  simp only [readUint16LE, List.getD_cons_zero, List.getD_cons_succ]
  rw [or_shiftLeft_eq_add b0 b1 8 (by omega)]
  omega

theorem readUint32LE_eq (b0 b1 b2 b3 : Nat) (h0 : b0 < 256) (h1 : b1 < 256)
    (h2 : b2 < 256) (rest : List Nat) :
    readUint32LE (b0 :: b1 :: b2 :: b3 :: rest) =
      b0 + b1 * 256 + b2 * 65536 + b3 * 16777216 := by
  simp only [readUint32LE, List.getD_cons_zero, List.getD_cons_succ]
  rw [or_shiftLeft_eq_add b0 b1 8 (by omega)]
  rw [or_shiftLeft_eq_add (b1 * 2 ^ 8 + b0) b2 16 (by omega)]
  rw [or_shiftLeft_eq_add (b2 * 2 ^ 16 + (b1 * 2 ^ 8 + b0)) b3 24 (by omega)]
  omega

theorem readUint16LE_putUint16LE (n : Nat) (h : n < 65536) (rest : List Nat) :
    readUint16LE (putUint16LE n ++ rest) = n := by
  simp only [putUint16LE, List.cons_append, List.nil_append, Nat.shiftRight_eq_div_pow]
  rw [readUint16LE_eq _ _ (by omega) rest]
  omega

theorem readUint32LE_putUint32LE (n : Nat) (h : n < 2 ^ 32) (rest : List Nat) :
    readUint32LE (putUint32LE n ++ rest) = n := by
  simp only [putUint32LE, List.cons_append, List.nil_append, Nat.shiftRight_eq_div_pow]
  rw [readUint32LE_eq _ _ _ _ (by omega) (by omega) (by omega) rest]
  omega

/-! ### Vector payload lemmas -/

theorem encodeF32Elems_length (d : List Nat) :
    (encodeF32Elems d).length = 4 * d.length := by
  induction d with
  | nil => rfl
  | cons x rest ih =>
    simp only [encodeF32Elems, List.length_append, List.length_cons, ih, putUint32LE,
      List.length_nil]
    omega

theorem encodeF16Elems_length (d : List Nat) :
    (encodeF16Elems d).length = 2 * d.length := by
  induction d with
  | nil => rfl
  | cons x rest ih =>
    simp only [encodeF16Elems, List.length_append, List.length_cons, ih, putUint16LE,
      List.length_nil]
    omega

theorem readF32Elems_encodeF32Elems (d : List Nat) (hb : ∀ x ∈ d, x < 2 ^ 32) :
    readF32Elems d.length (encodeF32Elems d) = d := by
  induction d with
  | nil => rfl
  | cons x rest ih =>
    have hx : x < 2 ^ 32 := hb x (by simp)
    have hrest : ∀ y ∈ rest, y < 2 ^ 32 := fun y hy => hb y (by simp [hy])
    have hdrop : (putUint32LE x ++ encodeF32Elems rest).drop 4 = encodeF32Elems rest := by
      simp [putUint32LE]
    simp only [encodeF32Elems, List.length_cons, readF32Elems]
    rw [readUint32LE_putUint32LE x hx, hdrop, ih hrest]

theorem mul_pow_or_eq_add (a b k : Nat) (h : b < 2 ^ k) :
    (a * 2 ^ k) ||| b = a * 2 ^ k + b := by
  rw [Nat.mul_comm a (2 ^ k), ← Nat.mul_add_lt_is_or h a]

/-- `float32ToFloat16` on a decomposed bit pattern agrees with its
arithmetic reformulation. -/
theorem float32ToFloat16_eq_arith (s e m : Nat) (hs : s < 2) (he : e < 256)
    (hm : m < 2 ^ 23) :
    float32ToFloat16 (s * 2 ^ 31 + e * 2 ^ 23 + m) = float32ToFloat16Arith s e m := by
  have hmask : ∀ kk : Nat, (1 <<< kk) - 1 = 2 ^ kk - 1 := fun kk => by
    rw [Nat.shiftLeft_eq, one_mul]
  have hb31 : (s * 2 ^ 31 + e * 2 ^ 23 + m) >>> 31 &&& 1 = s := by
    rw [Nat.shiftRight_eq_div_pow, Nat.and_one_is_mod]
    omega
  have hb23 : (s * 2 ^ 31 + e * 2 ^ 23 + m) >>> 23 &&& 0xFF = e := by
    rw [Nat.shiftRight_eq_div_pow, show (0xFF : Nat) = 2 ^ 8 - 1 by norm_num,
      Nat.and_pow_two_sub_one_eq_mod]
    omega
  have hbm : (s * 2 ^ 31 + e * 2 ^ 23 + m) &&& 0x7FFFFF = m := by
    rw [show (0x7FFFFF : Nat) = 2 ^ 23 - 1 by norm_num, Nat.and_pow_two_sub_one_eq_mod]
    omega
  have hb0 : (s * 2 ^ 31 + e * 2 ^ 23 + m) &&& 0x7FFFFFFF = e * 2 ^ 23 + m := by
    rw [show (0x7FFFFFFF : Nat) = 2 ^ 31 - 1 by norm_num, Nat.and_pow_two_sub_one_eq_mod]
    omega
  simp only [float32ToFloat16, float32ToFloat16Arith, hb31, hb23, hbm, hb0]
  by_cases h255 : e = 255
  · rw [if_pos (by omega : ((e : Nat) : Int) = 0xFF), if_pos h255]
    by_cases hm0 : m ≠ 0
    · rw [if_pos hm0, if_pos hm0, shiftLeft_or_eq_add s 0x7E00 15 (by norm_num)]
    · rw [if_neg hm0, if_neg hm0, shiftLeft_or_eq_add s 0x7C00 15 (by norm_num)]
  · rw [if_neg (by omega : ¬((e : Nat) : Int) = 0xFF), if_neg h255]
    by_cases hz : e = 0 ∧ m = 0
    · rw [if_pos (by omega : e * 2 ^ 23 + m = 0), if_pos hz, Nat.shiftLeft_eq]
    · rw [if_neg (by omega : ¬e * 2 ^ 23 + m = 0), if_neg hz]
      by_cases h143 : 143 ≤ e
      · rw [if_pos (by omega : ((e : Nat) : Int) - 127 + 15 ≥ 31), if_pos h143,
          shiftLeft_or_eq_add s 0x7C00 15 (by norm_num)]
      · rw [if_neg (by omega : ¬((e : Nat) : Int) - 127 + 15 ≥ 31), if_neg h143]
        by_cases h112 : e ≤ 112
        · rw [if_pos (by omega : ((e : Nat) : Int) - 127 + 15 ≤ 0), if_pos h112]
          by_cases h101 : e ≤ 101
          · rw [if_pos (by omega : ((e : Nat) : Int) - 127 + 15 < -10), if_pos h101,
              Nat.shiftLeft_eq]
          · rw [if_neg (by omega : ¬((e : Nat) : Int) - 127 + 15 < -10), if_neg h101]
            have hor : m ||| 0x800000 = 2 ^ 23 + m := by
              rw [show (0x800000 : Nat) = 1 <<< 23 from rfl,
                or_shiftLeft_eq_add m 1 23 hm, one_mul]
            have hshift : (1 - (((e : Nat) : Int) - 127 + 15)).toNat = 113 - e := by
              omega
            have hidx1 : 113 - e + 13 = 126 - e := by omega
            have hidx2 : 113 - e + 12 = 125 - e := by omega
            simp only [hor, hshift, hidx1, hidx2, Nat.shiftRight_eq_div_pow,
              Nat.and_one_is_mod, hmask, Nat.and_pow_two_sub_one_eq_mod]
            simp only [Nat.shiftLeft_eq]
            have hRlt : (2 ^ 23 + m) / 2 ^ (126 - e) < 2 ^ 10 := by
              have h1 : (2 ^ 23 + m) / 2 ^ (126 - e) ≤ (2 ^ 23 + m) / 2 ^ 14 :=
                Nat.div_le_div_left (Nat.pow_le_pow_right (by norm_num) (by omega))
                  (by positivity)
              have h2 : (2 ^ 23 + m) / 2 ^ 14 < 2 ^ 10 := by omega
              omega
            split_ifs
            · rw [mul_pow_or_eq_add s _ 15 (by omega)]
            · rw [mul_pow_or_eq_add s _ 15 (by omega)]
        · rw [if_neg (by omega : ¬((e : Nat) : Int) - 127 + 15 ≤ 0), if_neg h112]
          have htn1 : (((e : Nat) : Int) - 127 + 15).toNat = e - 112 := by omega
          have htn2 : (((e : Nat) : Int) - 127 + 15 + 1).toNat = e - 111 := by omega
          have hR13 : m / 2 ^ 13 < 2 ^ 10 := by omega
          simp only [htn1, htn2, Nat.shiftRight_eq_div_pow, Nat.and_one_is_mod,
            show (0xFFF : Nat) = 2 ^ 12 - 1 by norm_num, Nat.and_pow_two_sub_one_eq_mod,
            Nat.shiftLeft_eq]
          have hcomb : ∀ E R : Nat, E ≤ 31 → R < 2 ^ 10 →
              s * 2 ^ 15 ||| E * 2 ^ 10 ||| R = s * 2 ^ 15 + E * 2 ^ 10 + R := by
            intro E R hE hR
            rw [mul_pow_or_eq_add s (E * 2 ^ 10) 15 (by omega),
              show s * 2 ^ 15 + E * 2 ^ 10 = (s * 2 ^ 5 + E) * 2 ^ 10 by ring,
              mul_pow_or_eq_add _ R 10 (by omega)]
          by_cases hround : m / 2 ^ 12 % 2 = 1 ∧ (m % 2 ^ 12 ≠ 0 ∨ m / 2 ^ 13 % 2 = 1)
          · rw [if_pos hround, if_pos hround]
            by_cases hcarry : m / 2 ^ 13 + 1 = 0x400
            · rw [if_pos hcarry, if_pos (by omega : m / 2 ^ 13 + 1 = 2 ^ 10)]
              by_cases h142 : 142 ≤ e
              · rw [if_pos (by omega : ((e : Nat) : Int) - 127 + 15 + 1 ≥ 31),
                  if_pos h142, mul_pow_or_eq_add s 0x7C00 15 (by norm_num)]
              · rw [if_neg (by omega : ¬((e : Nat) : Int) - 127 + 15 + 1 ≥ 31),
                  if_neg h142, hcomb (e - 111) 0 (by omega) (by norm_num)]
                omega
            · rw [if_neg hcarry, if_neg (by omega : ¬m / 2 ^ 13 + 1 = 2 ^ 10),
                hcomb (e - 112) (m / 2 ^ 13 + 1) (by omega) (by omega)]
          · rw [if_neg hround, if_neg hround,
              if_neg (by omega : ¬m / 2 ^ 13 = 2 ^ 10),
              hcomb (e - 112) (m / 2 ^ 13) (by omega) (by omega)]

/-- `float16Val` on `s*2^15 + R` with `R ≤ 2^10`: the largest subnormal
step rolls over into the smallest normal value, so the magnitude is
uniformly `R * 2^-24`. -/
theorem float16Val_sub (s R : Nat) (hs : s < 2) (hR : R ≤ 2 ^ 10) :
    float16Val (s * 2 ^ 15 + R) =
      some (if s = 1 then -((R : ℚ) / 2 ^ 24) else (R : ℚ) / 2 ^ 24) := by
  have h1 : (s * 2 ^ 15 + R) / 2 ^ 15 % 2 = s := by omega
  rcases Nat.lt_or_ge R (2 ^ 10) with hlt | hge
  · have h2 : (s * 2 ^ 15 + R) / 2 ^ 10 % 32 = 0 := by omega
    have h3 : (s * 2 ^ 15 + R) % 2 ^ 10 = R := by omega
    simp only [float16Val, h1, h2, h3]
    norm_num
  · have hReq : R = 2 ^ 10 := by omega
    subst hReq
    have h2 : (s * 2 ^ 15 + 2 ^ 10) / 2 ^ 10 % 32 = 1 := by omega
    have h3 : (s * 2 ^ 15 + 2 ^ 10) % 2 ^ 10 = 0 := by omega
    simp only [float16Val, h1, h2, h3]
    norm_num

/-- `float16Val` on a normal pattern `s*2^15 + E*2^10 + M`. -/
theorem float16Val_normal (s E M : Nat) (hs : s < 2) (hE1 : 1 ≤ E) (hE2 : E ≤ 30)
    (hM : M < 2 ^ 10) :
    float16Val (s * 2 ^ 15 + E * 2 ^ 10 + M) =
      some (if s = 1 then -(((2 ^ 10 + M : Nat) : ℚ) * 2 ^ E / 2 ^ 25)
            else ((2 ^ 10 + M : Nat) : ℚ) * 2 ^ E / 2 ^ 25) := by
  have h1 : (s * 2 ^ 15 + E * 2 ^ 10 + M) / 2 ^ 15 % 2 = s := by omega
  have h2a : (s * 2 ^ 15 + E * 2 ^ 10 + M) / 2 ^ 10 = s * 32 + E := by
    have hX : s * 2 ^ 15 + E * 2 ^ 10 + M = M + (s * 32 + E) * 2 ^ 10 := by ring
    rw [hX, Nat.add_mul_div_right _ _ (by norm_num : 0 < 2 ^ 10),
      Nat.div_eq_of_lt hM, zero_add]
  have h2 : (s * 2 ^ 15 + E * 2 ^ 10 + M) / 2 ^ 10 % 32 = E := by
    rw [h2a]
    omega
  have h3 : (s * 2 ^ 15 + E * 2 ^ 10 + M) % 2 ^ 10 = M := by omega
  simp only [float16Val, h1, h2, h3]
  rw [if_neg (show ¬E = 31 by omega), if_neg (show ¬E = 0 by omega)]

/-- `float32Val` on a decomposed bit pattern. -/
theorem float32Val_decompose (s e m : Nat) (hs : s < 2) (he : e < 256)
    (hm : m < 2 ^ 23) (h255 : e ≠ 255) :
    float32Val (s * 2 ^ 31 + e * 2 ^ 23 + m) =
      some (if s = 1
        then -(if e = 0 then (m : ℚ) / 2 ^ 149 else ((2 ^ 23 + m : Nat) : ℚ) * 2 ^ e / 2 ^ 150)
        else (if e = 0 then (m : ℚ) / 2 ^ 149 else ((2 ^ 23 + m : Nat) : ℚ) * 2 ^ e / 2 ^ 150)) := by
  have h1 : (s * 2 ^ 31 + e * 2 ^ 23 + m) / 2 ^ 31 % 2 = s := by omega
  have h2 : (s * 2 ^ 31 + e * 2 ^ 23 + m) / 2 ^ 23 % 256 = e := by omega
  have h3 : (s * 2 ^ 31 + e * 2 ^ 23 + m) % 2 ^ 23 = m := by omega
  simp only [float32Val, h1, h2, h3]
  rw [if_neg h255]

/-- Rounding error bound transported to rationals: if `R` is the
round-to-nearest quotient of `M` by `2^k` then `R * 2^-24` is within
half a subnormal step of `M * 2^-(k+24)`. -/
theorem q_dist_helper (R M k : Nat) (hk : 1 ≤ k)
    (h1 : (R : Int) * 2 ^ k ≤ M + 2 ^ (k - 1))
    (h2 : (M : Int) ≤ R * 2 ^ k + 2 ^ (k - 1)) :
    |(R : ℚ) / 2 ^ 24 - (M : ℚ) / 2 ^ (k + 24)| ≤ 1 / 2 ^ 25 := by
  have hInt : |(R : Int) * 2 ^ k - M| ≤ 2 ^ (k - 1) := by
    rw [abs_le]
    constructor <;> omega
  have habs : |(R : ℚ) * 2 ^ k - (M : ℚ)| ≤ (2 : ℚ) ^ (k - 1) := by
    have hcast : ((((R : Int) * 2 ^ k - M : Int)) : ℚ) = (R : ℚ) * 2 ^ k - M := by
      push_cast
      ring
    rw [← hcast, ← Int.cast_abs]
    exact_mod_cast hInt
  have hrw : (R : ℚ) / 2 ^ 24 - (M : ℚ) / 2 ^ (k + 24) =
      ((R : ℚ) * 2 ^ k - M) / 2 ^ (k + 24) := by
    rw [pow_add]
    field_simp
    ring
  rw [hrw, abs_div, abs_of_pos (by positivity : (0 : ℚ) < 2 ^ (k + 24))]
  have hsplit : (2 : ℚ) ^ (k + 24) = 2 ^ (k - 1) * 2 ^ 25 := by
    rw [← pow_add]
    congr 1
    omega
  calc |(R : ℚ) * 2 ^ k - (M : ℚ)| / 2 ^ (k + 24)
      ≤ (2 : ℚ) ^ (k - 1) / 2 ^ (k + 24) := by gcongr
    _ = 1 / 2 ^ 25 := by
        rw [hsplit, ← div_div, div_self (by positivity : (2 : ℚ) ^ (k - 1) ≠ 0)]

/-- The Go rounding expression of the subnormal-target branch: quotient
bound and the two-sided nearest-multiple inequalities. -/
theorem subnormal_R_int_facts (e m : Nat) (he1 : 102 ≤ e) (he2 : e ≤ 112)
    (hm : m < 2 ^ 23) (R : Nat)
    (hR : R = if (2 ^ 23 + m) / 2 ^ (125 - e) % 2 = 1 ∧
        ((2 ^ 23 + m) % 2 ^ (125 - e) ≠ 0 ∨ (2 ^ 23 + m) / 2 ^ (126 - e) % 2 = 1)
      then (2 ^ 23 + m) / 2 ^ (126 - e) + 1 else (2 ^ 23 + m) / 2 ^ (126 - e)) :
    R ≤ 2 ^ 10 ∧ (R : Int) * 2 ^ (126 - e) ≤ (2 ^ 23 + m) + 2 ^ (125 - e) ∧
      ((2 ^ 23 + m : Nat) : Int) ≤ R * 2 ^ (126 - e) + 2 ^ (125 - e) := by
  subst hR
  interval_cases e <;> (split_ifs <;> (push_cast; omega))

/-- The Go rounding expression of the normal-target branch. -/
theorem normal_R_int_facts (m : Nat) (hm : m < 2 ^ 23) (R : Nat)
    (hR : R = if m / 2 ^ 12 % 2 = 1 ∧ (m % 2 ^ 12 ≠ 0 ∨ m / 2 ^ 13 % 2 = 1)
      then m / 2 ^ 13 + 1 else m / 2 ^ 13) :
    R ≤ 2 ^ 10 ∧ (R : Int) * 2 ^ 13 ≤ m + 2 ^ 12 ∧ (m : Int) ≤ R * 2 ^ 13 + 2 ^ 12 ∧
      (R = 2 ^ 10 → 2 ^ 23 - 2 ^ 12 ≤ m) := by
  subst hR
  split_ifs <;> (push_cast; omega)

/-- Rounding error bound for the normal-target branch: the rounded
half-precision value `(2^10+R) * 2^(e-112-10-15)` is within half an
input-binade ULP of the input value. -/
theorem normal_q_bound (e m R : Nat) (he1 : 113 ≤ e) (he2 : e ≤ 254) (hm : m < 2 ^ 23)
    (h1 : (R : Int) * 2 ^ 13 ≤ m + 2 ^ 12) (h2 : (m : Int) ≤ R * 2 ^ 13 + 2 ^ 12) :
    |((2 ^ 10 + R : Nat) : ℚ) * 2 ^ (e - 112) / 2 ^ 25 -
      ((2 ^ 23 + m : Nat) : ℚ) * 2 ^ e / 2 ^ 150| ≤ (2 : ℚ) ^ e / 2 ^ 137 := by
  have hpow : (2 : ℚ) ^ (e - 112) * 2 ^ 112 = 2 ^ e := by
    rw [← pow_add]
    congr 1
    omega
  have habs : |(R : ℚ) * 2 ^ 13 - m| ≤ 2 ^ 12 := by
    have hInt : |(R : Int) * 2 ^ 13 - m| ≤ 2 ^ 12 := by
      rw [abs_le]
      constructor <;> omega
    have hcast : (((R : Int) * 2 ^ 13 - m : Int) : ℚ) = (R : ℚ) * 2 ^ 13 - m := by
      push_cast
      ring
    rw [← hcast, ← Int.cast_abs]
    exact_mod_cast hInt
  have hD : ((2 ^ 10 + R : Nat) : ℚ) * 2 ^ (e - 112) / 2 ^ 25 -
      ((2 ^ 23 + m : Nat) : ℚ) * 2 ^ e / 2 ^ 150 =
      ((R : ℚ) * 2 ^ 13 - m) * 2 ^ e / 2 ^ 150 := by
    push_cast
    rw [← hpow]
    field_simp
    ring
  rw [hD, abs_div, abs_of_pos (by positivity : (0 : ℚ) < 2 ^ 150), abs_mul,
    abs_of_pos (by positivity : (0 : ℚ) < 2 ^ e)]
  calc |(R : ℚ) * 2 ^ 13 - m| * 2 ^ e / 2 ^ 150
      ≤ (2 : ℚ) ^ 12 * 2 ^ e / 2 ^ 150 := by gcongr
    _ ≤ (2 : ℚ) ^ e / 2 ^ 137 := by
        rw [div_le_div_iff (by positivity) (by positivity)]
        have hl : (2 : ℚ) ^ 12 * 2 ^ e * 2 ^ 137 = 2 ^ (e + 149) := by
          rw [mul_assoc, ← pow_add, ← pow_add]
          congr 1
          omega
        have hr : (2 : ℚ) ^ e * 2 ^ 150 = 2 ^ (e + 150) := by
          rw [← pow_add]
        rw [hl, hr]
        exact pow_le_pow_right (by norm_num) (by omega)

/-- Values below the float16 subnormal range flush to zero well within
one subnormal ULP: the float32-subnormal inputs. -/
theorem tiny_bound_e0 (m : Nat) (hm : m < 2 ^ 23) :
    |(0 : ℚ) - (m : ℚ) / 2 ^ 149| ≤ 1 / 2 ^ 24 := by
  rw [zero_sub, abs_neg, abs_of_nonneg (by positivity)]
  have h1 : (m : ℚ) ≤ 2 ^ 23 := by
    exact_mod_cast le_of_lt hm
  calc (m : ℚ) / 2 ^ 149 ≤ (2 : ℚ) ^ 23 / 2 ^ 149 := by gcongr
    _ ≤ 1 / 2 ^ 24 := by norm_num

/-- Values below the float16 subnormal range flush to zero well within
one subnormal ULP: input biased exponents 1..101. -/
theorem tiny_bound_small (e m : Nat) (he2 : e ≤ 101) (hm : m < 2 ^ 23) :
    |(0 : ℚ) - ((2 ^ 23 + m : Nat) : ℚ) * 2 ^ e / 2 ^ 150| ≤ 1 / 2 ^ 24 := by
  rw [zero_sub, abs_neg, abs_of_nonneg (by positivity)]
  have h1 : ((2 ^ 23 + m : Nat) : ℚ) ≤ 2 ^ 24 := by
    exact_mod_cast (by omega : 2 ^ 23 + m ≤ 2 ^ 24)
  have h2 : (2 : ℚ) ^ e ≤ 2 ^ 101 := pow_le_pow_right (by norm_num) he2
  calc ((2 ^ 23 + m : Nat) : ℚ) * 2 ^ e / 2 ^ 150
      ≤ (2 : ℚ) ^ 24 * 2 ^ 101 / 2 ^ 150 := by gcongr
    _ ≤ 1 / 2 ^ 24 := by norm_num

/-- Inputs in binade 143 or above exceed 65504 in magnitude. -/
theorem big_val_excluded (e m : Nat) (he1 : 143 ≤ e) (hm : m < 2 ^ 23) :
    ¬((2 ^ 23 + m : Nat) : ℚ) * 2 ^ e / 2 ^ 150 ≤ 65504 := by
  intro h
  have h1 : ((2 : ℚ) ^ 23) ≤ ((2 ^ 23 + m : Nat) : ℚ) := by
    exact_mod_cast (by omega : 2 ^ 23 ≤ 2 ^ 23 + m)
  have h2 : (2 : ℚ) ^ 143 ≤ 2 ^ e := pow_le_pow_right (by norm_num) he1
  have h3 : (65536 : ℚ) ≤ ((2 ^ 23 + m : Nat) : ℚ) * 2 ^ e / 2 ^ 150 := by
    calc (65536 : ℚ) = 2 ^ 23 * 2 ^ 143 / 2 ^ 150 := by norm_num
      _ ≤ ((2 ^ 23 + m : Nat) : ℚ) * 2 ^ e / 2 ^ 150 := by gcongr
  linarith

/-- A mantissa large enough to carry out of binade 142 also exceeds
65504 in magnitude. -/
theorem carry142_excluded (m : Nat) (hm1 : 2 ^ 23 - 2 ^ 12 ≤ m) (hm : m < 2 ^ 23) :
    ¬((2 ^ 23 + m : Nat) : ℚ) * 2 ^ 142 / 2 ^ 150 ≤ 65504 := by
  intro h
  have h1 : ((2 : ℚ) ^ 24 - 2 ^ 12) ≤ ((2 ^ 23 + m : Nat) : ℚ) := by
    have : (2 ^ 24 - 2 ^ 12 : Nat) ≤ 2 ^ 23 + m := by omega
    calc ((2 : ℚ) ^ 24 - 2 ^ 12) = ((2 ^ 24 - 2 ^ 12 : Nat) : ℚ) := by norm_num
      _ ≤ ((2 ^ 23 + m : Nat) : ℚ) := by exact_mod_cast this
  have h3 : (65520 : ℚ) ≤ ((2 ^ 23 + m : Nat) : ℚ) * 2 ^ 142 / 2 ^ 150 := by
    calc (65520 : ℚ) = ((2 : ℚ) ^ 24 - 2 ^ 12) * 2 ^ 142 / 2 ^ 150 := by norm_num
      _ ≤ ((2 ^ 23 + m : Nat) : ℚ) * 2 ^ 142 / 2 ^ 150 := by gcongr
  linarith

/-- The amended round-trip bound: every finite float32 whose magnitude
is at most 65504 (the largest finite float16) converts through
`float32ToFloat16` to a finite float16 within one ULP at float16
precision of the original value. -/
theorem float16_ulp_bound (b : Nat) (hb : b < 2 ^ 32) (q : ℚ)
    (hq : float32Val b = some q) (hle : |q| ≤ 65504) :
    ∃ q16, float16Val (float32ToFloat16 b) = some q16 ∧ |q16 - q| ≤ ulp16 b := by
  obtain ⟨s, e, m, hs, he, hm, rfl⟩ :
      ∃ s e m, s < 2 ∧ e < 256 ∧ m < 2 ^ 23 ∧ b = s * 2 ^ 31 + e * 2 ^ 23 + m :=
    ⟨b / 2 ^ 31, b / 2 ^ 23 % 256, b % 2 ^ 23, by omega, by omega, by omega, by omega⟩
  have h255 : e ≠ 255 := by
    intro h
    subst h
    have hnone : float32Val (s * 2 ^ 31 + 255 * 2 ^ 23 + m) = none := by
      simp only [float32Val]
      rw [if_pos (by omega)]
    rw [hnone] at hq
    exact Option.noConfusion hq
  rw [float32Val_decompose s e m hs he hm h255] at hq
  have hq' := Option.some.inj hq
  subst hq'
  rw [float32ToFloat16_eq_arith s e m hs he hm]
  have hulp : ulp16 (s * 2 ^ 31 + e * 2 ^ 23 + m) =
      (if e ≤ 112 then 1 / 2 ^ 24 else (2 : ℚ) ^ e / 2 ^ 137) := by
    simp only [ulp16]
    rw [show (s * 2 ^ 31 + e * 2 ^ 23 + m) / 2 ^ 23 % 256 = e by omega]
  rw [hulp]
  have habs2 : ∀ a c : ℚ, |(if s = 1 then -a else a) - (if s = 1 then -c else c)| = |a - c| := by
    intro a c
    split
    · rw [show -a - -c = -(a - c) by ring, abs_neg]
    · rfl
  have habs1 : ∀ a : ℚ, 0 ≤ a → |if s = 1 then -a else a| = a := by
    intro a ha
    split
    · rw [abs_neg, abs_of_nonneg ha]
    · exact abs_of_nonneg ha
  simp only [float32ToFloat16Arith]
  rw [if_neg h255]
  rcases Nat.lt_or_ge e 102 with h102 | h102
  · -- the value is far below the float16 subnormal range: flush to zero
    by_cases hz : e = 0 ∧ m = 0
    · rw [if_pos hz]
      obtain ⟨he0, hm0⟩ := hz
      subst he0
      subst hm0
      have hv : float16Val (s * 2 ^ 15) = some 0 := by
        have h0 := float16Val_sub s 0 hs (by norm_num)
        simpa using h0
      refine ⟨0, hv, ?_⟩
      rw [if_pos (by omega : (0 : Nat) ≤ 112)]
      simp
    · rw [if_neg hz, if_neg (by omega : ¬143 ≤ e), if_pos (by omega : e ≤ 112),
        if_pos (by omega : e ≤ 101)]
      have hv : float16Val (s * 2 ^ 15) = some 0 := by
        have h0 := float16Val_sub s 0 hs (by norm_num)
        simpa using h0
      refine ⟨0, hv, ?_⟩
      rw [if_pos (by omega : e ≤ 112)]
      have h00 : (0 : ℚ) = (if s = 1 then -(0 : ℚ) else 0) := by
        split <;> norm_num
      rw [h00, habs2]
      by_cases he0 : e = 0
      · subst he0
        rw [if_pos rfl]
        exact tiny_bound_e0 m hm
      · rw [if_neg he0]
        exact tiny_bound_small e m (by omega) hm
  · rcases Nat.lt_or_ge e 113 with h113 | h113
    · -- float16 subnormal target
      rw [if_neg (by omega : ¬(e = 0 ∧ m = 0)), if_neg (by omega : ¬143 ≤ e),
        if_pos (by omega : e ≤ 112), if_neg (by omega : ¬e ≤ 101)]
      set R := (if (2 ^ 23 + m) / 2 ^ (125 - e) % 2 = 1 ∧
          ((2 ^ 23 + m) % 2 ^ (125 - e) ≠ 0 ∨ (2 ^ 23 + m) / 2 ^ (126 - e) % 2 = 1)
        then (2 ^ 23 + m) / 2 ^ (126 - e) + 1
        else (2 ^ 23 + m) / 2 ^ (126 - e)) with hRdef
      obtain ⟨hR10, hI1, hI2⟩ := subnormal_R_int_facts e m (by omega) (by omega) hm R hRdef
      have hv := float16Val_sub s R hs hR10
      refine ⟨_, hv, ?_⟩
      rw [if_pos (by omega : e ≤ 112), if_neg (show ¬e = 0 by omega), habs2]
      have hmag : ((2 ^ 23 + m : Nat) : ℚ) * 2 ^ e / 2 ^ 150 =
          ((2 ^ 23 + m : Nat) : ℚ) / 2 ^ (126 - e + 24) := by
        have h150 : (2 : ℚ) ^ 150 = 2 ^ e * 2 ^ (126 - e + 24) := by
          rw [← pow_add]
          congr 1
          omega
        rw [h150, mul_comm ((2 ^ 23 + m : Nat) : ℚ) ((2 : ℚ) ^ e),
          mul_div_mul_left _ _ (by positivity : (2 : ℚ) ^ e ≠ 0)]
      rw [hmag]
      have hd := q_dist_helper R (2 ^ 23 + m) (126 - e) (by omega)
        (by rw [show (126 : Nat) - e - 1 = 125 - e by omega]; push_cast; push_cast at hI1; omega)
        (by rw [show (126 : Nat) - e - 1 = 125 - e by omega]; push_cast; push_cast at hI2; omega)
      calc |(R : ℚ) / 2 ^ 24 - ((2 ^ 23 + m : Nat) : ℚ) / 2 ^ (126 - e + 24)| ≤ 1 / 2 ^ 25 := hd
        _ ≤ 1 / 2 ^ 24 := by norm_num
    · -- float16 normal target (binades above 142 are excluded by hle)
      rw [if_neg (by omega : ¬(e = 0 ∧ m = 0))]
      have hmagle : ((2 ^ 23 + m : Nat) : ℚ) * 2 ^ e / 2 ^ 150 ≤ 65504 := by
        have habsq := habs1 (((2 ^ 23 + m : Nat) : ℚ) * 2 ^ e / 2 ^ 150) (by positivity)
        rw [if_neg (show ¬e = 0 by omega)] at hle
        rw [habsq] at hle
        exact hle
      have h143 : ¬143 ≤ e := fun hge => big_val_excluded e m hge hm hmagle
      rw [if_neg h143, if_neg (by omega : ¬e ≤ 112)]
      set R := (if m / 2 ^ 12 % 2 = 1 ∧ (m % 2 ^ 12 ≠ 0 ∨ m / 2 ^ 13 % 2 = 1)
        then m / 2 ^ 13 + 1 else m / 2 ^ 13) with hRdef
      obtain ⟨hR10, hI1, hI2, hcarrym⟩ := normal_R_int_facts m hm R hRdef
      rw [if_neg (by omega : ¬e ≤ 112)]
      by_cases hcarry : R = 2 ^ 10
      · by_cases h142 : 142 ≤ e
        · exfalso
          have he142 : e = 142 := by omega
          subst he142
          exact carry142_excluded m (hcarrym hcarry) hm hmagle
        · rw [if_pos hcarry, if_neg h142]
          have hv := float16Val_normal s (e - 111) 0 hs (by omega) (by omega) (by norm_num)
          simp only [add_zero] at hv
          refine ⟨_, hv, ?_⟩
          rw [if_neg (show ¬e = 0 by omega), habs2]
          have hshape : ((2 ^ 10 : Nat) : ℚ) * 2 ^ (e - 111) / 2 ^ 25 =
              ((2 ^ 10 + 2 ^ 10 : Nat) : ℚ) * 2 ^ (e - 112) / 2 ^ 25 := by
            push_cast
            rw [show e - 111 = (e - 112) + 1 by omega, pow_succ]
            ring
          rw [hshape]
          rw [hcarry] at hI1 hI2
          exact normal_q_bound e m (2 ^ 10) (by omega) (by omega) hm hI1 hI2
      · rw [if_neg hcarry]
        have hv := float16Val_normal s (e - 112) R hs (by omega) (by omega) (by omega)
        refine ⟨_, hv, ?_⟩
        rw [if_neg (show ¬e = 0 by omega), habs2]
        exact normal_q_bound e m R (by omega) (by omega) hm hI1 hI2

/-- C6 counterexample: the claim as stated quantifies over every
float32, but a finite float32 above the float16 range (here 1e6, bits
0x49742400) converts to +infinity, which is not within one ULP (or any
finite distance) of the original value. -/
theorem float16_roundtrip_one_ulp_counterexample :
    ¬(∀ b q, b < 2 ^ 32 → float32Val b = some q →
      ∃ q16, float16Val (float32ToFloat16 b) = some q16 ∧ |q16 - q| ≤ ulp16 b) := by
  intro h
  obtain ⟨q16, hq16, _⟩ := h 0x49742400 1000000 (by decide) (by norm_num [float32Val])
  have hnone : float16Val (float32ToFloat16 0x49742400) = none := by decide
  rw [hnone] at hq16
  exact Option.noConfusion hq16

/-- C6 (amended): for every finite float32 whose magnitude is at most
65504 (the largest finite float16), the float16 round-trip value
differs from the original by at most one ULP at float16 precision
(the conversion rounds to nearest with ties to even, handling
subnormals); +Inf and -Inf round-trip exactly; and signed zero is
preserved bit-for-bit. -/
theorem float16_roundtrip_one_ulp :
    (∀ b q, b < 2 ^ 32 → float32Val b = some q → |q| ≤ 65504 →
      ∃ q16, float16Val (float32ToFloat16 b) = some q16 ∧ |q16 - q| ≤ ulp16 b) ∧
    float16ToFloat32 (float32ToFloat16 float32PosInfBits) = float32PosInfBits ∧
    float16ToFloat32 (float32ToFloat16 float32NegInfBits) = float32NegInfBits ∧
    float16ToFloat32 (float32ToFloat16 0) = 0 ∧
    float16ToFloat32 (float32ToFloat16 0x80000000) = 0x80000000 :=
  ⟨fun b q hb hq hle => float16_ulp_bound b hb q hq hle,
   by decide, by decide, by decide, by decide⟩

/-- C6 witness: the amended bound applied at 1.5 (bits 0x3FC00000). -/
theorem float16_roundtrip_one_ulp_witness :
    (0x3FC00000 : Nat) < 2 ^ 32 ∧ float32Val 0x3FC00000 = some (3 / 2) ∧
    |(3 / 2 : ℚ)| ≤ 65504 ∧
    ∃ q16, float16Val (float32ToFloat16 0x3FC00000) = some q16 ∧
      |q16 - 3 / 2| ≤ ulp16 0x3FC00000 :=
  ⟨by decide, by norm_num [float32Val], by rw [abs_of_nonneg (by norm_num : (0:ℚ) ≤ 3 / 2)]; norm_num,
   float16_roundtrip_one_ulp.1 0x3FC00000 (3 / 2) (by decide)
     (by norm_num [float32Val]) (by rw [abs_of_nonneg (by norm_num : (0:ℚ) ≤ 3 / 2)]; norm_num)⟩

/-- C1: for every float32 vector with non-nil data and at most 1998
elements, encoding to the TDS wire format succeeds and decoding the
produced bytes yields a vector with the same element type, the same
element count and bit-for-bit identical elements (elements are carried
as bit patterns, so NaN payloads are compared exactly). -/
theorem vector_float32_encode_decode_roundtrip (d : List Nat)
    (hb : ∀ x ∈ d, x < 2 ^ 32) (hlen : d.length ≤ 1998) :
    ∃ buf, encodeToBytes ⟨VectorElementFloat32, some d⟩ = Except.ok (some buf) ∧
      decodeFromBytes buf = Except.ok ⟨VectorElementFloat32, some d⟩ := by
  have hmax : MaxDimensions VectorElementFloat32 = 1998 := rfl
  refine ⟨[vectorMagic, vectorVersion, d.length % 256, (d.length >>> 8) % 256,
      VectorElementFloat32, 0x00, 0x00, 0x00] ++ encodeF32Elems d, ?_, ?_⟩
  · simp only [encodeToBytes, hmax]
    rw [if_neg (by omega)]
    simp
  · have hlen32 : (encodeF32Elems d).length = 4 * d.length := encodeF32Elems_length d
    have hdims : readUint16LE (d.length % 256 :: (d.length >>> 8) % 256 ::
        VectorElementFloat32 :: 0x00 :: 0x00 :: 0x00 :: encodeF32Elems d) = d.length := by
      have := readUint16LE_putUint16LE d.length (by omega)
        (VectorElementFloat32 :: 0x00 :: 0x00 :: 0x00 :: encodeF32Elems d)
      simpa [putUint16LE] using this
    simp only [decodeFromBytes, vectorHeaderSize, vectorMagic, vectorVersion,
      VectorElementFloat32, VectorElementFloat16, BytesPerElement,
      List.cons_append, List.nil_append, List.length_cons,
      List.getD_cons_zero, List.getD_cons_succ, List.drop_succ_cons, List.drop_zero,
      reduceIte, if_true, if_false]
    simp only [VectorElementFloat32] at hdims
    rw [hdims]
    rw [if_neg (by omega)]
    rw [if_neg (by omega)]
    rw [if_neg (by omega)]
    rw [if_neg (by omega)]
    rw [if_neg (by simp)]
    rw [if_neg (by omega)]
    rw [readF32Elems_encodeF32Elems d hb]

/-- C1 witness: the round-trip theorem applied to a concrete two-element
vector holding the bits of 1.0 and a NaN payload. -/
theorem vector_float32_encode_decode_roundtrip_witness :
    (∀ x ∈ ([0x3F800000, 0x7FC00001] : List Nat), x < 2 ^ 32) ∧
    ([0x3F800000, 0x7FC00001] : List Nat).length ≤ 1998 ∧
    ∃ buf, encodeToBytes ⟨VectorElementFloat32, some [0x3F800000, 0x7FC00001]⟩ =
        Except.ok (some buf) ∧
      decodeFromBytes buf = Except.ok ⟨VectorElementFloat32, some [0x3F800000, 0x7FC00001]⟩ :=
  ⟨by decide, by decide,
    vector_float32_encode_decode_roundtrip [0x3F800000, 0x7FC00001] (by decide) (by decide)⟩

/-- C7: for a vector with non-nil data of a known element type, within
the dimension limit the encoder emits exactly
`8 + dims * bytesPerElement` bytes laid out as magic `0xA9`, version
`0x01`, the dimension count as uint16 little-endian, the element-type
byte, three zero reserved bytes, and the little-endian elements; above
the limit it returns an error instead of bytes. -/
theorem vector_encodeToBytes_layout (et : VectorElementType) (d : List Nat)
    (het : et = VectorElementFloat32 ∨ et = VectorElementFloat16) :
    (d.length ≤ MaxDimensions et →
      ∃ buf, encodeToBytes ⟨et, some d⟩ = Except.ok (some buf) ∧
        buf.length = vectorHeaderSize + d.length * BytesPerElement et ∧
        buf.take 8 = [vectorMagic, vectorVersion, d.length % 256,
          (d.length >>> 8) % 256, et, 0x00, 0x00, 0x00] ∧
        buf.getD 2 0 + 256 * buf.getD 3 0 = d.length ∧
        buf.drop 8 = (if et = VectorElementFloat32 then encodeF32Elems d
          else encodeF16Elems d)) ∧
    (d.length > MaxDimensions et →
      ∃ msg, encodeToBytes ⟨et, some d⟩ = Except.error msg) := by
  have hsr : d.length >>> 8 = d.length / 256 := Nat.shiftRight_eq_div_pow d.length 8
  rcases het with h | h <;> subst h
  · constructor
    · intro hle
      have hle' : d.length ≤ 1998 := by
        simpa [MaxDimensions, VectorElementFloat32, vectorMaxDimensionsFloat32] using hle
      refine ⟨[vectorMagic, vectorVersion, d.length % 256, (d.length >>> 8) % 256,
          VectorElementFloat32, 0x00, 0x00, 0x00] ++ encodeF32Elems d, ?_, ?_, ?_, ?_, ?_⟩
      · simp only [encodeToBytes]
        rw [if_neg (by
          simpa [MaxDimensions, VectorElementFloat32, vectorMaxDimensionsFloat32]
            using Nat.not_lt.mpr hle)]
        simp
      · have hbpe : BytesPerElement VectorElementFloat32 = 4 := rfl
        simp only [List.length_append, List.length_cons, List.length_nil,
          encodeF32Elems_length, vectorHeaderSize, hbpe]
        omega
      · simp [List.take_succ_cons]
      · simp only [List.cons_append, List.nil_append,
          List.getD_cons_zero, List.getD_cons_succ]
        omega
      · simp
    · intro hgt
      refine ⟨"mssql: vector dimensions exceeds maximum", ?_⟩
      simp only [encodeToBytes]
      rw [if_pos hgt]
  · constructor
    · intro hle
      have hle' : d.length ≤ 3996 := by
        simpa [MaxDimensions, VectorElementFloat32, VectorElementFloat16,
          vectorMaxDimensionsFloat16] using hle
      refine ⟨[vectorMagic, vectorVersion, d.length % 256, (d.length >>> 8) % 256,
          VectorElementFloat16, 0x00, 0x00, 0x00] ++ encodeF16Elems d, ?_, ?_, ?_, ?_, ?_⟩
      · simp only [encodeToBytes]
        rw [if_neg (by
          simpa [MaxDimensions, VectorElementFloat32, VectorElementFloat16,
            vectorMaxDimensionsFloat16] using Nat.not_lt.mpr hle)]
        simp [VectorElementFloat32, VectorElementFloat16]
      · have hbpe : BytesPerElement VectorElementFloat16 = 2 := rfl
        simp only [List.length_append, List.length_cons, List.length_nil,
          encodeF16Elems_length, vectorHeaderSize, hbpe]
        omega
      · simp [List.take_succ_cons]
      · simp only [List.cons_append, List.nil_append,
          List.getD_cons_zero, List.getD_cons_succ]
        omega
      · simp [VectorElementFloat32, VectorElementFloat16]
    · intro hgt
      refine ⟨"mssql: vector dimensions exceeds maximum", ?_⟩
      simp only [encodeToBytes]
      rw [if_pos hgt]

/-- C7 witness: the layout theorem applied to a one-element float32
vector (within the limit) and to a 1999-element float32 vector (above
the limit). -/
theorem vector_encodeToBytes_layout_witness :
    (([0x40490FDB] : List Nat).length ≤ MaxDimensions VectorElementFloat32 ∧
      ∃ buf, encodeToBytes ⟨VectorElementFloat32, some [0x40490FDB]⟩ =
          Except.ok (some buf) ∧
        buf.length = vectorHeaderSize + 1 * BytesPerElement VectorElementFloat32 ∧
        buf.take 8 = [vectorMagic, vectorVersion, 1, 0, VectorElementFloat32,
          0x00, 0x00, 0x00] ∧
        buf.getD 2 0 + 256 * buf.getD 3 0 = 1 ∧
        buf.drop 8 = encodeF32Elems [0x40490FDB]) ∧
    ((List.replicate 1999 0).length > MaxDimensions VectorElementFloat32 ∧
      ∃ msg, encodeToBytes ⟨VectorElementFloat32, some (List.replicate 1999 0)⟩ =
        Except.error msg) := by
  constructor
  · refine ⟨by decide, ?_⟩
    have h := (vector_encodeToBytes_layout VectorElementFloat32 [0x40490FDB]
      (Or.inl rfl)).1 (by decide)
    simpa using h
  · refine ⟨by rw [List.length_replicate]; decide, ?_⟩
    exact (vector_encodeToBytes_layout VectorElementFloat32 (List.replicate 1999 0)
      (Or.inl rfl)).2 (by rw [List.length_replicate]; decide)

/-- C4: for every int64 scaled coefficient, the money buffer is the high
32-bit word little-endian in bytes 0-3 followed by the low word
little-endian in bytes 4-7 (not one 64-bit little-endian write), and
`readMoney`, which reassembles `high<<32 | low`, recovers the
coefficient exactly over the whole int64 range. -/
theorem money_param_roundtrip (c : Int) (h1 : -(2 ^ 63) ≤ c) (h2 : c < 2 ^ 63) :
    makeMoneyParamBuffer c = putUint32LE (int64ToUint64 c / 2 ^ 32) ++
      putUint32LE (int64ToUint64 c % 2 ^ 32) ∧
    readMoney (makeMoneyParamBuffer c) = c := by
  have hdiv : int64ToUint64 c >>> 32 = int64ToUint64 c / 2 ^ 32 :=
    Nat.shiftRight_eq_div_pow _ 32
  have hu_lt : int64ToUint64 c < 2 ^ 64 := by
    simp only [int64ToUint64]
    omega
  refine ⟨by rw [makeMoneyParamBuffer, hdiv], ?_⟩
  have hdrop : (putUint32LE (int64ToUint64 c >>> 32) ++
      putUint32LE (int64ToUint64 c % 2 ^ 32)).drop 4 =
      putUint32LE (int64ToUint64 c % 2 ^ 32) := by
    simp [putUint32LE]
  simp only [readMoney, makeMoneyParamBuffer, hdrop]
  rw [readUint32LE_putUint32LE _ (by omega) _]
  rw [← List.append_nil (putUint32LE (int64ToUint64 c % 2 ^ 32))]
  rw [readUint32LE_putUint32LE _ (by omega) _]
  rw [shiftLeft_or_eq_add _ _ 32 (by omega)]
  have hre : int64ToUint64 c >>> 32 * 2 ^ 32 + int64ToUint64 c % 2 ^ 32 =
      int64ToUint64 c := by
    rw [hdiv]
    omega
  rw [hre]
  simp only [uint64ToInt64, int64ToUint64]
  split <;> omega

/-- C4 witness: the round-trip applied at the spec's example coefficient
`-8823427577689998` (the scaled integer of -882342757768.9998). -/
theorem money_param_roundtrip_witness :
    (-(2 ^ 63) : Int) ≤ -8823427577689998 ∧
    (-8823427577689998 : Int) < 2 ^ 63 ∧
    readMoney (makeMoneyParamBuffer (-8823427577689998)) = -8823427577689998 :=
  ⟨by decide, by decide, (money_param_roundtrip (-8823427577689998) (by decide) (by decide)).2⟩

/-- C5: encoding 23:59:59.998350 rounds to midnight of the next day,
encoding 23:59:59.997 stays within the same day at tick 25919999, and
for every time of day the encoded tick count stays below 300×86400
while the day component is the original day or the next one. -/
theorem encodeDateTime_midnight_carry (days : Int) :
    encodeDateTime days 86399998350000 = (days + 1, 0) ∧
    encodeDateTime days 86399997000000 = (days, 25919999) ∧
    ∀ nanos, nanos < nanosPerDay →
      (encodeDateTime days nanos).2 < ticksPerDay ∧
      ((encodeDateTime days nanos).1 = days ∨ (encodeDateTime days nanos).1 = days + 1) := by
  refine ⟨?_, ?_, ?_⟩
  · simp [encodeDateTime, ticksPerDay]
  · simp [encodeDateTime, ticksPerDay]
  · intro nanos hn
    simp only [encodeDateTime, ticksPerDay, nanosPerDay] at *
    split
    · exact ⟨by omega, Or.inr rfl⟩
    · exact ⟨by omega, Or.inl rfl⟩

/-- C5 witness: the carry theorem applied on 2025-01-01 (day 45657
relative to 1900-01-01) and, for the universally quantified part, at
the last representable nanosecond of the day. -/
theorem encodeDateTime_midnight_carry_witness :
    encodeDateTime 45657 86399998350000 = (45658, 0) ∧
    encodeDateTime 45657 86399997000000 = (45657, 25919999) ∧
    ((encodeDateTime 45657 86399999999999).2 < ticksPerDay ∧
      ((encodeDateTime 45657 86399999999999).1 = 45657 ∨
        (encodeDateTime 45657 86399999999999).1 = 45657 + 1)) :=
  ⟨(encodeDateTime_midnight_carry 45657).1,
   (encodeDateTime_midnight_carry 45657).2.1,
   (encodeDateTime_midnight_carry 45657).2.2 86399999999999 (by decide)⟩

/-- C9: the handshake adapter's `FinishPacket` returns false and writes
nothing when no packet is pending; flushes a pending packet (an empty
PRELOGIN packet being exactly the 8-byte header), returns true and
clears the flag; and on a transport failure returns the wrapped error
while writing nothing and leaving the pending flag set. -/
theorem finishPacket_behaviour (transportErr : Option String) (c : TlsHandshakeConn) :
    (c.packetPending = false → FinishPacket transportErr c = (c, false, none, [])) ∧
    (c.packetPending = true → transportErr = none →
      FinishPacket transportErr c =
        ({ packetPending := false }, true, none, emptyPreloginPacket) ∧
      emptyPreloginPacket.length = 8) ∧
    (∀ e, c.packetPending = true → transportErr = some e →
      FinishPacket transportErr c =
        (c, false, some ("cannot send handshake packet: " ++ e), []) ∧
      (FinishPacket transportErr c).1.packetPending = true) := by
  refine ⟨?_, ?_, ?_⟩
  · intro h
    simp [FinishPacket, h]
  · intro h he
    subst he
    simp [FinishPacket, h, emptyPreloginPacket]
  · intro e h he
    subst he
    simp [FinishPacket, h]

/-- C9 witness: the three behaviours at concrete states: no pending
packet, a pending packet with a working transport, and a pending packet
with a failing transport. -/
theorem finishPacket_behaviour_witness :
    FinishPacket none { packetPending := false } =
      ({ packetPending := false }, false, none, []) ∧
    FinishPacket none { packetPending := true } =
      ({ packetPending := false }, true, none, emptyPreloginPacket) ∧
    FinishPacket (some "mock write error") { packetPending := true } =
      ({ packetPending := true }, false,
        some ("cannot send handshake packet: mock write error"), []) :=
  ⟨(finishPacket_behaviour none { packetPending := false }).1 rfl,
   ((finishPacket_behaviour none { packetPending := true }).2.1 rfl rfl).1,
   ((finishPacket_behaviour (some "mock write error")
      { packetPending := true }).2.2 "mock write error" rfl rfl).1⟩

/-- C8: JSON and NullJSON parameters use the nvarchar wire type with
Size 0 (the PLP max format), the declared type id is the native json
type exactly when the session negotiated JSON support and is left unset
otherwise, and an invalid NullJSON keeps the same type info with a nil
buffer. -/
theorem makeParamExtra_json_decl (s : Stmt) (content : String) (valid : Bool) :
    (makeParamExtraJSON s (.json content)).ti.TypeId = .typeNVarChar ∧
    (makeParamExtraJSON s (.json content)).ti.Size = 0 ∧
    ((makeParamExtraJSON s (.json content)).ti.DeclTypeId = some .typeJson ↔
      jsonSupportedOf s = true) ∧
    (jsonSupportedOf s = false →
      (makeParamExtraJSON s (.json content)).ti.DeclTypeId = none) ∧
    (makeParamExtraJSON s (.nullJson valid content)).ti =
      (makeParamExtraJSON s (.json content)).ti ∧
    (makeParamExtraJSON s (.nullJson false content)).buffer = none ∧
    (makeParamExtraJSON s (.nullJson true content)).buffer = some (str2ucs2 content) ∧
    (makeParamExtraJSON s (.json content)).buffer = some (str2ucs2 content) := by
  cases h : jsonSupportedOf s <;>
    simp [makeParamExtraJSON, h]

/-- C8 witness: declared type id present with a JSON-supporting session,
absent without one, and nil buffer for an invalid NullJSON. -/
theorem makeParamExtra_json_decl_witness :
    (makeParamExtraJSON ⟨some ⟨some ⟨true⟩⟩⟩ (.json "abc")).ti.DeclTypeId =
      some .typeJson ∧
    (makeParamExtraJSON ⟨some ⟨some ⟨false⟩⟩⟩ (.json "abc")).ti.DeclTypeId = none ∧
    (makeParamExtraJSON ⟨some ⟨some ⟨true⟩⟩⟩ (.nullJson false "abc")).buffer = none :=
  ⟨((makeParamExtra_json_decl ⟨some ⟨some ⟨true⟩⟩⟩ "abc" false).2.2.1).mpr rfl,
   (makeParamExtra_json_decl ⟨some ⟨some ⟨false⟩⟩⟩ "abc" false).2.2.2.1 rfl,
   (makeParamExtra_json_decl ⟨some ⟨some ⟨true⟩⟩⟩ "abc" false).2.2.2.2.2.1⟩

/-- C3 evaluation: `Vector.Value` never returns an error - a vector
containing +Inf or -Inf is encoded as the JSON text "[+Inf]"/"[-Inf]"
instead of being rejected, and `ToJSON` renders NaN as the literal
"NaN" rather than JSON `null` (contradicting `TestVectorValueInfRejected`
and `TestVectorValueNaNRoundTrip`). -/
theorem vector_value_inf_nan_not_special :
    Vector.Value ⟨VectorElementFloat32, some [float32PosInfBits]⟩ =
      Except.ok (some "[+Inf]") ∧
    Vector.Value ⟨VectorElementFloat32, some [float32NegInfBits]⟩ =
      Except.ok (some "[-Inf]") ∧
    Vector.ToJSON ⟨VectorElementFloat32, some [0x3F800000, float32NaNBits, 0x40400000]⟩ =
      "[1, NaN, 3]" :=
  ⟨rfl, rfl, rfl⟩

/-! ### Store lemmas for the aliasing claims -/

theorem store_read_alloc_fresh (st : Store) (c : List Nat) :
    (st.alloc c).1.read (st.alloc c).2 = c := by
  simp [Store.alloc, Store.read, List.getD]

theorem store_read_writeElem_ne (st : Store) (r r' i x : Nat) (h : r ≠ r') :
    (st.writeElem r i x).read r' = st.read r' := by
  simp [Store.writeElem, Store.read, List.getD, List.getElem?_set_ne h]

/-- C10: the three vector constructors copy their input slice and
`Values` returns a fresh copy, so writing through the caller's slice
after construction, or through the slice returned by `Values`, never
changes the data the vector refers to. -/
theorem vector_constructors_copy (st : Store) (r : Nat) (hr : r < st.cells.length) :
    (∀ st2 v, NewVector st r = Except.ok (st2, v) →
      v.dataRef ≠ r ∧ st2.read v.dataRef = st.read r ∧
      ∀ i x, (st2.writeElem r i x).read v.dataRef = st2.read v.dataRef) ∧
    (∀ et st2 v, NewVectorWithType st et r = Except.ok (st2, v) →
      v.dataRef ≠ r ∧ st2.read v.dataRef = st.read r ∧
      ∀ i x, (st2.writeElem r i x).read v.dataRef = st2.read v.dataRef) ∧
    (∀ st2 v, NewVectorFromFloat64 st r = Except.ok (st2, v) →
      v.dataRef ≠ r ∧
      st2.read v.dataRef = (st.read r).map float64BitsToFloat32Bits ∧
      ∀ i x, (st2.writeElem r i x).read v.dataRef = st2.read v.dataRef) ∧
    (∀ v : VectorH, v.dataRef < st.cells.length →
      (VectorH.Values st v).2 ≠ v.dataRef ∧
      (VectorH.Values st v).1.read (VectorH.Values st v).2 = st.read v.dataRef ∧
      ∀ i x, ((VectorH.Values st v).1.writeElem (VectorH.Values st v).2 i x).read v.dataRef
        = (VectorH.Values st v).1.read v.dataRef) := by
  refine ⟨?_, ?_, ?_, ?_⟩
  · intro st2 v h
    simp only [NewVector] at h
    split at h
    · exact absurd h (by simp)
    · simp only [Except.ok.injEq, Prod.mk.injEq] at h
      obtain ⟨h1, h2⟩ := h
      subst h1
      subst h2
      refine ⟨by simp [Store.alloc]; omega, store_read_alloc_fresh st (st.read r), ?_⟩
      intro i x
      exact store_read_writeElem_ne _ r _ i x (by simp [Store.alloc]; omega)
  · intro et st2 v h
    simp only [NewVectorWithType] at h
    split at h
    · exact absurd h (by simp)
    · simp only [Except.ok.injEq, Prod.mk.injEq] at h
      obtain ⟨h1, h2⟩ := h
      subst h1
      subst h2
      refine ⟨by simp [Store.alloc]; omega, store_read_alloc_fresh st (st.read r), ?_⟩
      intro i x
      exact store_read_writeElem_ne _ r _ i x (by simp [Store.alloc]; omega)
  · intro st2 v h
    simp only [NewVectorFromFloat64] at h
    split at h
    · exact absurd h (by simp)
    · simp only [Except.ok.injEq, Prod.mk.injEq] at h
      obtain ⟨h1, h2⟩ := h
      subst h1
      subst h2
      refine ⟨by simp [Store.alloc]; omega,
        store_read_alloc_fresh st ((st.read r).map float64BitsToFloat32Bits), ?_⟩
      intro i x
      exact store_read_writeElem_ne _ r _ i x (by simp [Store.alloc]; omega)
  · intro v hv
    refine ⟨by simp [VectorH.Values, Store.alloc]; omega, ?_, ?_⟩
    · exact store_read_alloc_fresh st (st.read v.dataRef)
    · intro i x
      exact store_read_writeElem_ne _ _ _ i x (by simp [VectorH.Values, Store.alloc]; omega)

/-- C10 witness: a concrete one-cell store; constructing a vector from
cell 0 allocates cell 1, and writing through cell 0 afterwards leaves
cell 1 unchanged. -/
theorem vector_constructors_copy_witness :
    (0 < (Store.mk [[1, 2, 3]]).cells.length) ∧
    ((Store.mk [[1, 2, 3], [1, 2, 3]]).writeElem 0 0 99).read 1 =
      (Store.mk [[1, 2, 3], [1, 2, 3]]).read 1 :=
  ⟨by decide,
   ((vector_constructors_copy ⟨[[1, 2, 3]]⟩ 0 (by decide)).1
      ⟨[[1, 2, 3], [1, 2, 3]]⟩ ⟨VectorElementFloat32, 1⟩ rfl).2.2 0 99⟩

/-- C2 evaluation: the Go decoder tests `len(buf) == 0`, which cannot
distinguish a nil slice from a non-nil empty one, so a non-nil empty
buffer decodes without error to an absent vector instead of failing as
truncated (contradicting `TestVectorNil`). -/
theorem decodeFromBytes_empty_not_error :
    decodeFromBytes [] = Except.ok { ElementType := VectorElementFloat32, Data := none } := rfl

end GoMssql
